import Mathlib

/-!
# Verification of the Urdu children's story generation core

Shallow embedding of the BPE tokenizer (`src/tokenizer/bpe_tokenizer.py`),
the special-token constants (`src/utils/constants.py`) and the trigram
language model (`src/model/trigram_model.py`).

Modelling conventions:
* a Python `str` is a `String` (equivalently its `List Char` of code points);
  a BPE symbol/token is represented by its character list `Sym := List Char`;
* a Python `dict` used as a frequency table is an association list in
  insertion order; `defaultdict(int)` increments are `bump`/`bumpBy`
  (update-in-place on the first matching key, append otherwise), and plain
  dict assignment is `insertOv`;
* Python `float` arithmetic on probabilities is modelled over `ℚ`
  (the code only adds, multiplies and divides count ratios);
* `random.choices` is modelled by an arbitrary oracle `choose : ℕ → ℕ`
  selecting an index into the candidate list at every step, so theorems
  about generation hold for every possible sampling outcome;
* the one reachable Python exception (`tokens[-1]` on an empty list in
  `generate_story`) is modelled with `Except`.
-/

namespace UrduStory

/-- A BPE symbol / token: a Python string viewed as its list of characters. -/
abbrev Sym : Type := List Char

/-- Whitespace predicate modelling the characters Python's `str.split()` /
`str.strip()` act on in this code base (the corpus and the tokens only ever
contain ordinary spaces, tabs and newlines). -/
def isWS (c : Char) : Bool :=
  c = ' ' || c = '\t' || c = '\n' || c = '\r'

/-- Model of `str.split()` on a character list: split on whitespace runs, dropping
empty words.  `acc` holds the (reversed) current word. -/
def splitWSAux : List Char → List Char → List Sym
  | [], acc => if acc = [] then [] else [acc.reverse]
  | c :: cs, acc =>
    if isWS c then
      if acc = [] then splitWSAux cs [] else acc.reverse :: splitWSAux cs []
    else
      splitWSAux cs (c :: acc)

/-- Model of `text.split()` from the Python sources. -/
def splitWS (cs : List Char) : List Sym := splitWSAux cs []

/-- Model of `str.lstrip()`. -/
def lstripL (cs : List Char) : List Char := cs.dropWhile isWS

/-- Model of `str.rstrip()`. -/
def rstripL (cs : List Char) : List Char := (cs.reverse.dropWhile isWS).reverse

/-- Model of `str.strip()`. -/
def stripL (cs : List Char) : List Char := lstripL (rstripL cs)

/-- Model of `' '.join(words)`: interleave single spaces between words. -/
def joinSp : List Sym → List Char
  | [] => []
  | [w] => w
  | w :: rest => w ++ ' ' :: joinSp rest

-- ### src/utils/constants.py

/-- Model of `EOS` = U+E000 (constants.py line 8): end-of-sentence sentinel. -/
def EOS : Sym := ['\uE000']

/-- Model of `EOP` = U+E001 (constants.py line 9): end-of-paragraph sentinel. -/
def EOP : Sym := ['\uE001']

/-- Model of `EOT` = U+E002 (constants.py line 10): end-of-text sentinel. -/
def EOT : Sym := ['\uE002']

/-- Model of `SPECIAL_TOKENS = {EOS, EOP, EOT}` (constants.py line 13). -/
def SPECIAL_TOKENS : List Sym := [EOS, EOP, EOT]

/-- Model of `EOW = '</w>'` (constants.py line 16): the BPE end-of-word marker. -/
def EOW : Sym := ['<', '/', 'w', '>']

-- ### src/tokenizer/bpe_tokenizer.py

/-- The literal special-token strings hard-coded in `bpe_tokenizer.py`
(lines 51 and 304): `['<EOS>', '<EOP>', '<EOT>']`.  Note these are the
ASCII bracketed strings, not the sentinels of `constants.py`. -/
def encodeSpecials : List Sym :=
  [('<' :: 'E' :: 'O' :: 'S' :: '>' :: []),
   ('<' :: 'E' :: 'O' :: 'P' :: '>' :: []),
   ('<' :: 'E' :: 'O' :: 'T' :: '>' :: [])]

/-- The merge loop shared verbatim by `merge_pair` (lines 103–117) and
`_apply_merge_to_tokens` (lines 332–344): scan left to right, replacing
every non-overlapping adjacent occurrence of `pair` by the concatenation
of its two symbols. -/
def mergeWord (pair : Sym × Sym) : List Sym → List Sym
  | a :: b :: rest =>
    if a = pair.1 ∧ b = pair.2 then
      (pair.1 ++ pair.2) :: mergeWord pair rest
    else
      a :: mergeWord pair (b :: rest)
  | [a] => [a]
  | [] => []

/-- Model of `_apply_merge_to_tokens(tokens, pair)` (lines 321–346). -/
def applyMergeToTokens (tokens : List Sym) (pair : Sym × Sym) : List Sym :=
  mergeWord pair tokens

/-- Tokenisation of a single non-special word inside `encode`
(lines 308–313): character-level tokens plus a trailing `'</w>'`, then
every merge rule applied in training order. -/
def encodeWord (merges : List (Sym × Sym)) (word : Sym) : List Sym :=
  merges.foldl applyMergeToTokens (word.map (fun c => [c]) ++ [EOW])

/-- Model of `encode(text, merges)` (lines 281–318): split on whitespace; emit the
hard-coded `'<EOS>'/'<EOP>'/'<EOT>'` strings atomically; decompose every
other word into characters plus `'</w>'` and fold the merge rules over it;
concatenate the per-word token lists. -/
def encode (text : String) (merges : List (Sym × Sym)) : List Sym :=
  (splitWS text.data).foldr
    (fun word acc =>
      (if word ∈ encodeSpecials then [word] else encodeWord merges word) ++ acc)
    []

/-- The `special_tokens` set built inside `decode` (lines 369–372). -/
def decodeSpecials : List Sym :=
  [('<' :: 'E' :: 'O' :: 'T' :: '>' :: []),
   ('<' :: 'E' :: 'O' :: 'S' :: '>' :: []),
   ('<' :: 'E' :: 'O' :: 'P' :: '>' :: []),
   ('<' :: 'P' :: 'A' :: 'D' :: '>' :: []),
   ('<' :: 'U' :: 'N' :: 'K' :: '>' :: []),
   ('<' :: 'S' :: 'T' :: 'A' :: 'R' :: 'T' :: '>' :: []),
   ('<' :: 'E' :: 'N' :: 'D' :: '>' :: []),
   ('N' :: 'o' :: 'n' :: 'e' :: []),
   ('u' :: 'n' :: 'd' :: 'e' :: 'f' :: 'i' :: 'n' :: 'e' :: 'd' :: []),
   ('n' :: 'u' :: 'l' :: 'l' :: []),
   ('N' :: 'a' :: 'N' :: []),
   []]

/-- The per-token keep test of `decode` (lines 377–382): drop `None`,
drop the empty string, drop members of the `special_tokens` set, and drop
any token whose first character is `'<'`. -/
def decodeKeep : Option Sym → Option Sym
  | none => none
  | some t =>
    if t ≠ [] && !(decodeSpecials.contains t) && t.head? ≠ some '<' then
      some t
    else
      none

/-- Model of `text.replace('</w>', ' ')` (line 388): replace every non-overlapping
occurrence of the four characters `'</w>'` by one space, left to right. -/
def replaceEOW : List Char → List Char
  | '<' :: '/' :: 'w' :: '>' :: rest => ' ' :: replaceEOW rest
  | c :: rest => c :: replaceEOW rest
  | [] => []

/-- Model of `decode(tokens)` (lines 349–391): filter the tokens, concatenate the
survivors, replace `'</w>'` markers by spaces, then
`' '.join(text.split()).strip()`. -/
def decode (tokens : List (Option Sym)) : String :=
  if tokens = [] then ""
  else
    let valid := tokens.filterMap decodeKeep
    let text := valid.flatten
    let text2 := replaceEOW text
    String.mk (stripL (joinSp (splitWS text2)))

/-- Wrapper: `decode` on a plain token list (the way `generate_story` calls it). -/
def decodeS (tokens : List Sym) : String := decode (tokens.map some)

-- ### src/model/trigram_model.py

/-- Unigram table: insertion-ordered association list, a Python dict. -/
abbrev UniTable : Type := List (Sym × ℕ)

/-- Bigram table. -/
abbrev BiTable : Type := List ((Sym × Sym) × ℕ)

/-- Trigram table. -/
abbrev TriTable : Type := List ((Sym × Sym × Sym) × ℕ)

/-- Dictionary read with default 0: Python's `d.get(k, 0)`. -/
def lookupD {α : Type} [DecidableEq α] : List (α × ℕ) → α → ℕ
  | [], _ => 0
  | (k, v) :: rest, key => if k = key then v else lookupD rest key

/-- Total count of a table: `sum(d.values())`. -/
def totalCount {α : Type} (tbl : List (α × ℕ)) : ℕ := (tbl.map Prod.snd).sum

/-- Model of `defaultdict(int)` increment `d[k] += n`: update the first entry with
the given key in place, or append a fresh entry (also when `n = 0`, as a
`defaultdict` read-and-add creates the key). -/
def bumpBy {α : Type} [DecidableEq α] : List (α × ℕ) → α → ℕ → List (α × ℕ)
  | [], key, n => [(key, n)]
  | (k, v) :: rest, key, n =>
    if k = key then (k, v + n) :: rest else (k, v) :: bumpBy rest key n

/-- Model of `d[k] += 1`. -/
def bump {α : Type} [DecidableEq α] (tbl : List (α × ℕ)) (key : α) : List (α × ℕ) :=
  bumpBy tbl key 1

/-- The counting loop of `count_ngrams` (lines 48–60): at every position
increment the unigram count and, when one/two successors exist, the bigram
and trigram counts. -/
def countLoop : UniTable → BiTable → TriTable → List Sym → UniTable × BiTable × TriTable
  | uni, bi, tri, [] => (uni, bi, tri)
  | uni, bi, tri, a :: rest =>
    countLoop (bump uni a)
      (match rest with | b :: _ => bump bi (a, b) | [] => bi)
      (match rest with | b :: c :: _ => bump tri (a, b, c) | _ => tri)
      rest

/-- Model of `count_ngrams(tokens)` (lines 23–62). -/
def count_ngrams (tokens : List Sym) : UniTable × BiTable × TriTable :=
  countLoop [] [] [] tokens

/-- The default interpolation weights `(0.1, 0.3, 0.6)` of
`interpolated_probability` and `generate_story` (line 113). -/
def defaultLambdas : ℚ × ℚ × ℚ := (1/10, 3/10, 3/5)

/-- Model of `interpolated_probability(w1, w2, w3, unigram_counts, bigram_counts,
trigram_counts, lambdas)` (lines 106–157), float arithmetic modelled over
`ℚ`.  Each zero denominator makes its component `0.0` instead of dividing
(the three `if ... > 0 else 0.0` guards of lines 144, 149 and 154). -/
def interpolated_probability (w1 w2 w3 : Sym) (uni : UniTable) (bi : BiTable)
    (tri : TriTable) (lambdas : ℚ × ℚ × ℚ) : ℚ :=
  let p1 : ℚ :=
    if 0 < totalCount uni then (lookupD uni w3 : ℚ) / (totalCount uni : ℚ) else 0
  let p2 : ℚ :=
    if 0 < lookupD uni w2 then (lookupD bi (w2, w3) : ℚ) / (lookupD uni w2 : ℚ) else 0
  let p3 : ℚ :=
    if 0 < lookupD bi (w1, w2) then
      (lookupD tri (w1, w2, w3) : ℚ) / (lookupD bi (w1, w2) : ℚ)
    else 0
  lambdas.1 * p1 + lambdas.2.1 * p2 + lambdas.2.2 * p3

/-- Model of `P_unigram(w3) = count(w3) / total_unigram_count`, 0 if there are no
unigrams.  Written from the spec wording of §4.5 (refinement side of C4). -/
def P_unigram (uni : UniTable) (w3 : Sym) : ℚ :=
  if totalCount uni = 0 then 0 else (lookupD uni w3 : ℚ) / (totalCount uni : ℚ)

/-- Model of `P_bigram(w3|w2) = count(w2,w3) / count(w2)`, 0 if `w2` is unseen.
Written from the spec wording of §4.5. -/
def P_bigram (uni : UniTable) (bi : BiTable) (w2 w3 : Sym) : ℚ :=
  if lookupD uni w2 = 0 then 0 else (lookupD bi (w2, w3) : ℚ) / (lookupD uni w2 : ℚ)

/-- Model of `P_trigram(w3|w1,w2) = count(w1,w2,w3) / count(w1,w2)`, 0 if the
context is unseen.  Written from the spec wording of §4.5. -/
def P_trigram (bi : BiTable) (tri : TriTable) (w1 w2 w3 : Sym) : ℚ :=
  if lookupD bi (w1, w2) = 0 then 0
  else (lookupD tri (w1, w2, w3) : ℚ) / (lookupD bi (w1, w2) : ℚ)

/-- Model of `'<PAD>'`, the dummy context token of `generate_story` (line 200). -/
def PAD : Sym := ['<', 'P', 'A', 'D', '>']

/-- The two-token context from the end of the sequence (lines 196–203):
the last two tokens, `('<PAD>', t)` for a singleton, nothing for an empty
sequence (the loop breaks there). -/
def lastTwo (ts : List Sym) : Option (Sym × Sym) :=
  match ts.reverse with
  | b :: a :: _ => some (a, b)
  | [b] => some (PAD, b)
  | [] => none

/-- The candidate scan of `generate_story` (lines 205–213): every token of
the unigram vocabulary paired with its interpolated probability, kept only
when that probability is strictly positive. -/
def genCandidates (w1 w2 : Sym) (uni : UniTable) (bi : BiTable) (tri : TriTable)
    (lambdas : ℚ × ℚ × ℚ) : List (Sym × ℚ) :=
  (uni.map Prod.fst).filterMap (fun w3 =>
    let p := interpolated_probability w1 w2 w3 uni bi tri lambdas
    if 0 < p then some (w3, p) else none)

/-- Model of `random.choices(candidates, weights=probs, k=1)[0]` under the random
oracle: the candidate at the oracle's index, reduced modulo the list
length (so every list position is reachable and only list positions are). -/
def genStep (cands : List (Sym × ℚ)) (r : ℕ) : Sym :=
  (cands.getD (r % cands.length) ([], 0)).1

/-- The sampling loop of `generate_story` (lines 194–230).  `choose` is the
random oracle: with a non-empty candidate list `cands` at step `step`,
`random.choices` yields `genStep cands (choose step)`, so every theorem
below quantifying over `choose` holds for every sampling outcome.  The
sampled token is appended before the `EOT` test, exactly as in the code. -/
def genLoop (uni : UniTable) (bi : BiTable) (tri : TriTable)
    (lambdas : ℚ × ℚ × ℚ) (maxLen : ℕ) (choose : ℕ → ℕ) (step : ℕ)
    (tokens : List Sym) : List Sym :=
  if _h : tokens.length < maxLen then
    match lastTwo tokens with
    | none => tokens
    | some (w1, w2) =>
      if genCandidates w1 w2 uni bi tri lambdas = [] then tokens
      else if genStep (genCandidates w1 w2 uni bi tri lambdas) (choose step) = EOT then
        tokens ++ [genStep (genCandidates w1 w2 uni bi tri lambdas) (choose step)]
      else
        genLoop uni bi tri lambdas maxLen choose (step + 1)
          (tokens ++ [genStep (genCandidates w1 w2 uni bi tri lambdas) (choose step)])
  else tokens
  termination_by maxLen - tokens.length
  decreasing_by simp only [List.length_append, List.length_cons, List.length_nil]; omega

/-- The forced trailing `EOT` of `generate_story`
(`if len(tokens) >= max_len and tokens[-1] != EOT: tokens.append(EOT)`,
lines 232–235).  `none` models the `IndexError` Python's `tokens[-1]`
raises when the sequence is empty there (Python `and` short-circuits, so
the subscript only runs once `len(tokens) >= max_len`). -/
def forceEOT (maxLen : ℕ) (tokens : List Sym) : Option (List Sym) :=
  if maxLen ≤ tokens.length then
    match tokens.getLast? with
    | none => none
    | some t => some (if t ≠ EOT then tokens ++ [EOT] else tokens)
  else
    some tokens

/-- The token sequence `generate_story` builds before decoding
(lines 188–235): the sampling loop followed by the forced trailing
`EOT`. -/
def genStoryTokens (prefixTokens : List Sym) (maxLen : ℕ) (uni : UniTable)
    (bi : BiTable) (tri : TriTable) (lambdas : ℚ × ℚ × ℚ) (choose : ℕ → ℕ) :
    Option (List Sym) :=
  forceEOT maxLen (genLoop uni bi tri lambdas maxLen choose 0 prefixTokens)

/-- The Urdu sentence-ending punctuation test of `generate_story`
(line 245): `'۔'`, `'؟'` or `'!'` as final character. -/
def endsPunct (cs : List Char) : Bool :=
  match cs.getLast? with
  | some c => c = '۔' || c = '؟' || c = '!'
  | none => false

/-- The conditional punctuation append of `generate_story`
(lines 242–246) on the decoded character list: if the text is non-empty,
right-strip it and append `'۔'` unless it already ends with sentence
punctuation. -/
def punctFix (d : List Char) : List Char :=
  if d ≠ [] then
    if ¬ endsPunct (rstripL d) then rstripL d ++ ['۔'] else rstripL d
  else d

/-- The post-processing of `generate_story` (lines 237–252): decode the
tokens, apply the punctuation fix, and finally `str.strip()`. -/
def finalText (tokens : List Sym) : String :=
  String.mk (stripL (punctFix (decodeS tokens).data))

/-- Model of `generate_story(prefix_tokens, max_len, unigram_counts, bigram_counts,
trigram_counts, lambdas)` (lines 160–252). -/
def generate_story (prefixTokens : List Sym) (maxLen : ℕ) (uni : UniTable)
    (bi : BiTable) (tri : TriTable) (lambdas : ℚ × ℚ × ℚ) (choose : ℕ → ℕ) :
    Except String String :=
  match genStoryTokens prefixTokens maxLen uni bi tri lambdas choose with
  | none => Except.error "IndexError: list index out of range"
  | some ts => Except.ok (finalText ts)

-- ### BPE training (src/tokenizer/bpe_tokenizer.py, lines 62–199)

/-- A training vocabulary: word-form (tuple of symbols) → frequency, in
insertion order (`initialize_vocabulary` output). -/
abbrev Vocab : Type := List (List Sym × ℕ)

/-- The adjacent symbol pairs of one word-form, in scan order
(lines 81–83).  The `len < 2` short-circuit of line 77 is the catch-all
case. -/
def adjPairs : List Sym → List (Sym × Sym)
  | a :: b :: rest => (a, b) :: adjPairs (b :: rest)
  | _ => []

/-- Model of `get_pair_frequencies(vocab)` (lines 62–85): sum the
frequency-weighted count of each adjacent pair over every word-form. -/
def get_pair_frequencies (vocab : Vocab) : List ((Sym × Sym) × ℕ) :=
  vocab.foldl (fun acc e => (adjPairs e.1).foldl (fun a p => bumpBy a p e.2) acc) []

/-- Dict assignment `d[k] = v`: overwrite the first entry carrying this
key, append otherwise (`merge_pair`, line 118). -/
def insertOv {α : Type} [DecidableEq α] : List (α × ℕ) → α → ℕ → List (α × ℕ)
  | [], key, v => [(key, v)]
  | (k, w) :: rest, key, v =>
    if k = key then (k, v) :: rest else (k, w) :: insertOv rest key v

/-- Model of `merge_pair(pair, vocab)` (lines 88–120): rewrite every word-form with
the shared merge loop (`mergeWord`), rebuilding the dictionary. -/
def merge_pair (pair : Sym × Sym) (vocab : Vocab) : Vocab :=
  vocab.foldl (fun acc e => insertOv acc (mergeWord pair e.1) e.2) []

/-- Model of `count_unique_symbols(vocab)` (lines 123–136): the number of distinct
symbols across all word-forms. -/
def count_unique_symbols (vocab : Vocab) : ℕ :=
  ((vocab.map Prod.fst).flatten.dedup).length

/-- Model of `max(pairs.items(), key=lambda x: x[1])` (line 179): the first entry
with maximal count, matching Python's `max` over insertion order. -/
def pickMax : List ((Sym × Sym) × ℕ) → Option ((Sym × Sym) × ℕ)
  | [] => none
  | x :: rest => some (rest.foldl (fun best y => if best.2 < y.2 then y else best) x)

/-- Total number of symbol occurrences in the vocabulary; fuel bound for
the training loop.  Every executed merge strictly shrinks some word-form
(the chosen pair occurs adjacently in at least one word), so the `while
True` loop of `train_bpe` always hits one of its two `break`s within
`vocabSize vocab` iterations. -/
def vocabSize (vocab : Vocab) : ℕ := ((vocab.map Prod.fst).map List.length).sum

/-- The `while True` body of `train_bpe` (lines 161–192): stop when the
distinct-symbol count reaches the target or no pair is left to merge;
otherwise merge the most frequent pair and record it. -/
def trainLoop (target : ℕ) : ℕ → Vocab → List (Sym × Sym) → Vocab × List (Sym × Sym)
  | 0, vocab, merges => (vocab, merges)
  | fuel + 1, vocab, merges =>
    if target ≤ count_unique_symbols vocab then (vocab, merges)
    else
      match pickMax (get_pair_frequencies vocab) with
      | none => (vocab, merges)
      | some best => trainLoop target fuel (merge_pair best.1 vocab) (merges ++ [best.1])

/-- Model of `train_bpe(vocab, target_vocab_size)` (lines 139–199). -/
def train_bpe (vocab : Vocab) (target : ℕ) : Vocab × List (Sym × Sym) :=
  trainLoop target (vocabSize vocab + 1) vocab []

-- ### Concrete tables used by the claims

/-- Spec §8 scenario vocabulary `{a:10, b:5, c:3}`. -/
def scenarioUni : UniTable := [(['a'], 10), (['b'], 5), (['c'], 3)]

/-- Spec §8 scenario bigrams `{(a,b):4, (b,c):2}`. -/
def scenarioBi : BiTable := [((['a'], ['b']), 4), ((['b'], ['c']), 2)]

/-- Spec §8 scenario trigrams `{(a,b,c):2}`. -/
def scenarioTri : TriTable := [((['a'], ['b'], ['c']), 2)]

/-- Unigram table of a counter-scenario violating the sub-count
consistency invariant of spec §3: context `b` has unigram count 1 ... -/
def cexUni : UniTable := [(['b'], 1)]

/-- Bigram table of the counter-scenario: `(b, c)` claims count 4, exceeding the unigram count 1 of its context `b`. -/
def cexBi : BiTable := [((['b'], ['c']), 4)]

/-- Empty trigram table of the counter-scenario. -/
def cexTri : TriTable := []

/-! ## Helper lemmas -/

/-- The code's guarded component expression equals the spec's component
formula: `interpolated_probability` is exactly
`λ1·P_unigram + λ2·P_bigram + λ3·P_trigram`. -/
theorem interp_eq_spec (w1 w2 w3 : Sym) (uni : UniTable) (bi : BiTable)
    (tri : TriTable) (lambdas : ℚ × ℚ × ℚ) :
    interpolated_probability w1 w2 w3 uni bi tri lambdas =
      lambdas.1 * P_unigram uni w3 + lambdas.2.1 * P_bigram uni bi w2 w3 +
        lambdas.2.2 * P_trigram bi tri w1 w2 w3 := by
  simp only [interpolated_probability, P_unigram, P_bigram, P_trigram,
    Nat.pos_iff_ne_zero, ite_not]

/-- Specialisation of `interp_eq_spec` to the default weights, with the projections of
`defaultLambdas` evaluated. -/
theorem interp_eq_spec_default (w1 w2 w3 : Sym) (uni : UniTable) (bi : BiTable)
    (tri : TriTable) :
    interpolated_probability w1 w2 w3 uni bi tri defaultLambdas =
      1 / 10 * P_unigram uni w3 + 3 / 10 * P_bigram uni bi w2 w3 +
        3 / 5 * P_trigram bi tri w1 w2 w3 := by
  rw [interp_eq_spec]
  norm_num [defaultLambdas]

/-- A dictionary value never exceeds the sum of all values. -/
theorem lookupD_le_totalCount {α : Type} [DecidableEq α] (tbl : List (α × ℕ))
    (key : α) : lookupD tbl key ≤ totalCount tbl := by
  induction tbl with
  | nil => simp [lookupD, totalCount]
  | cons e rest ih =>
    obtain ⟨k, v⟩ := e
    by_cases h : k = key
    · simp [lookupD, totalCount, h]
    · simp only [lookupD, totalCount, List.map_cons, List.sum_cons, if_neg h]
      exact ih.trans (Nat.le_add_left _ _)

/-- Evaluation of `interpolated_probability` on the spec §8 scenario. -/
theorem interp_scenario_value :
    interpolated_probability ['a'] ['b'] ['c'] scenarioUni scenarioBi scenarioTri
      defaultLambdas = 131 / 300 := by
  have h1 : totalCount scenarioUni = 18 := by decide
  have h2 : lookupD scenarioUni ['c'] = 3 := by decide
  have h3 : lookupD scenarioUni ['b'] = 5 := by decide
  have h4 : lookupD scenarioBi (['b'], ['c']) = 2 := by decide
  have h5 : lookupD scenarioBi (['a'], ['b']) = 4 := by decide
  have h6 : lookupD scenarioTri (['a'], ['b'], ['c']) = 2 := by decide
  simp only [interpolated_probability, defaultLambdas, h1, h2, h3, h4, h5, h6]
  norm_num

/-- Evaluation of `interpolated_probability` on the inconsistent
counter-scenario tables: the result exceeds 1. -/
theorem interp_cex_value :
    interpolated_probability ['a'] ['b'] ['c'] cexUni cexBi cexTri
      defaultLambdas = 6 / 5 := by
  have h1 : totalCount cexUni = 1 := by decide
  have h2 : lookupD cexUni ['c'] = 0 := by decide
  have h3 : lookupD cexUni ['b'] = 1 := by decide
  have h4 : lookupD cexBi (['b'], ['c']) = 4 := by decide
  have h5 : lookupD cexBi (['a'], ['b']) = 0 := by decide
  have h6 : lookupD cexTri (['a'], ['b'], ['c']) = 0 := by decide
  simp only [interpolated_probability, defaultLambdas, h1, h2, h3, h4, h5, h6]
  norm_num

/-- Each spec component is a number in `[0,1]` as soon as its numerator
count is bounded by its denominator count (`P_unigram` needs no
hypothesis: a value is at most the table total). -/
theorem P_unigram_bounds (uni : UniTable) (w3 : Sym) :
    0 ≤ P_unigram uni w3 ∧ P_unigram uni w3 ≤ 1 := by
  unfold P_unigram
  split
  · norm_num
  · rename_i h
    have hpos : (0 : ℚ) < (totalCount uni : ℚ) := by
      exact_mod_cast Nat.pos_of_ne_zero h
    constructor
    · positivity
    · rw [div_le_one hpos]
      exact_mod_cast lookupD_le_totalCount uni w3

/-- Bounds for `P_bigram` under the sub-count consistency hypothesis. -/
theorem P_bigram_bounds (uni : UniTable) (bi : BiTable) (w2 w3 : Sym)
    (hbi : lookupD bi (w2, w3) ≤ lookupD uni w2) :
    0 ≤ P_bigram uni bi w2 w3 ∧ P_bigram uni bi w2 w3 ≤ 1 := by
  unfold P_bigram
  split
  · norm_num
  · rename_i h
    have hpos : (0 : ℚ) < (lookupD uni w2 : ℚ) := by
      exact_mod_cast Nat.pos_of_ne_zero h
    exact ⟨by positivity, by rw [div_le_one hpos]; exact_mod_cast hbi⟩

/-- Bounds for `P_trigram` under the sub-count consistency hypothesis. -/
theorem P_trigram_bounds (bi : BiTable) (tri : TriTable) (w1 w2 w3 : Sym)
    (htri : lookupD tri (w1, w2, w3) ≤ lookupD bi (w1, w2)) :
    0 ≤ P_trigram bi tri w1 w2 w3 ∧ P_trigram bi tri w1 w2 w3 ≤ 1 := by
  unfold P_trigram
  split
  · norm_num
  · rename_i h
    have hpos : (0 : ℚ) < (lookupD bi (w1, w2) : ℚ) := by
      exact_mod_cast Nat.pos_of_ne_zero h
    exact ⟨by positivity, by rw [div_le_one hpos]; exact_mod_cast htri⟩

/-- Unconditional non-negativity of `P_bigram`: both the guarded zero and
the ratio of counts are non-negative, for arbitrary tables. -/
theorem P_bigram_nonneg (uni : UniTable) (bi : BiTable) (w2 w3 : Sym) :
    0 ≤ P_bigram uni bi w2 w3 := by
  unfold P_bigram
  split
  · norm_num
  · positivity

/-- Unconditional non-negativity of `P_trigram`, for arbitrary tables. -/
theorem P_trigram_nonneg (bi : BiTable) (tri : TriTable) (w1 w2 w3 : Sym) :
    0 ≤ P_trigram bi tri w1 w2 w3 := by
  unfold P_trigram
  split
  · norm_num
  · positivity

/-- A `bump` grows `totalCount` by exactly one. -/
theorem totalCount_bump {α : Type} [DecidableEq α] (tbl : List (α × ℕ)) (key : α) :
    totalCount (bump tbl key) = totalCount tbl + 1 := by
  unfold bump
  induction tbl with
  | nil => simp [bumpBy, totalCount]
  | cons e rest ih =>
    obtain ⟨k, v⟩ := e
    by_cases h : k = key
    · simp only [bumpBy, if_pos h, totalCount, List.map_cons, List.sum_cons]
      omega
    · simp only [bumpBy, if_neg h, totalCount, List.map_cons, List.sum_cons] at ih ⊢
      omega

/-- Running totals of the `count_ngrams` loop: one unigram per position,
one bigram per position with a successor, one trigram per position with
two successors. -/
theorem countLoop_totals (ts : List Sym) :
    ∀ uni bi tri,
      totalCount (countLoop uni bi tri ts).1 = totalCount uni + ts.length ∧
      totalCount (countLoop uni bi tri ts).2.1 = totalCount bi + (ts.length - 1) ∧
      totalCount (countLoop uni bi tri ts).2.2 = totalCount tri + (ts.length - 2) := by
  induction ts with
  | nil => intro uni bi tri; simp [countLoop]
  | cons a rest ih =>
    intro uni bi tri
    match rest with
    | [] =>
      simp [countLoop, totalCount_bump]
    | [b] =>
      simp [countLoop, totalCount_bump]
    | b :: c :: rest2 =>
      have hstep : countLoop uni bi tri (a :: b :: c :: rest2) =
          countLoop (bump uni a) (bump bi (a, b)) (bump tri (a, b, c))
            (b :: c :: rest2) := rfl
      rw [hstep]
      obtain ⟨e1, e2, e3⟩ := ih (bump uni a) (bump bi (a, b)) (bump tri (a, b, c))
      refine ⟨?_, ?_, ?_⟩
      · rw [e1, totalCount_bump]; simp only [List.length_cons]; omega
      · rw [e2, totalCount_bump]; simp only [List.length_cons]; omega
      · rw [e3, totalCount_bump]; simp only [List.length_cons]; omega

/-! ## Claim theorems C4, C5, C6, C8 -/

/-- **C4**: `interpolated_probability` returns exactly
`λ1·P_unigram(w3) + λ2·P_bigram(w3|w2) + λ3·P_trigram(w3|w1,w2)` with the
default weights `(0.1, 0.3, 0.6)`, where each component falls back to `0`
on a zero denominator; on the spec scenario tables it yields
`0.1·(3/18) + 0.3·(2/5) + 0.6·(2/4) = 131/300 ≈ 0.4367`. -/
theorem C4_interpolated_probability_formula :
    (∀ (w1 w2 w3 : Sym) (uni : UniTable) (bi : BiTable) (tri : TriTable),
        interpolated_probability w1 w2 w3 uni bi tri defaultLambdas =
          1 / 10 * P_unigram uni w3 + 3 / 10 * P_bigram uni bi w2 w3 +
            3 / 5 * P_trigram bi tri w1 w2 w3) ∧
      interpolated_probability ['a'] ['b'] ['c'] scenarioUni scenarioBi scenarioTri
        defaultLambdas = 131 / 300 := by
  constructor
  · exact interp_eq_spec_default
  · exact interp_scenario_value

/-- **C5 counterexample**: with context unigram count 1 but bigram count 4
(tables an adversarial caller may pass), `interpolated_probability`
returns `6/5 > 1`, so the claim's bound `0 ≤ result ≤ 1` over all count
tables is false. -/
theorem C5_counterexample_above_one :
    ¬ (0 ≤ interpolated_probability ['a'] ['b'] ['c'] cexUni cexBi cexTri
          defaultLambdas ∧
        interpolated_probability ['a'] ['b'] ['c'] cexUni cexBi cexTri
          defaultLambdas ≤ 1) := by
  rw [interp_cex_value]
  norm_num

/-- **C5 (amended)**: for arbitrary count tables,
`interpolated_probability` with the default weights never divides by zero
(each zero denominator yields a zero component), is non-negative, and is
exactly `0` when all three components are `0`; the upper bound
`result ≤ 1` holds whenever the tables satisfy the sub-count consistency
of spec §3 (`count(w2,w3) ≤ count(w2)` and
`count(w1,w2,w3) ≤ count(w1,w2)`), as they do for tables produced by
correct counting. -/
theorem C5_probability_bounds (w1 w2 w3 : Sym) (uni : UniTable) (bi : BiTable)
    (tri : TriTable) :
    0 ≤ interpolated_probability w1 w2 w3 uni bi tri defaultLambdas ∧
      (P_unigram uni w3 = 0 ∧ P_bigram uni bi w2 w3 = 0 ∧
          P_trigram bi tri w1 w2 w3 = 0 →
        interpolated_probability w1 w2 w3 uni bi tri defaultLambdas = 0) ∧
      (lookupD bi (w2, w3) ≤ lookupD uni w2 →
        lookupD tri (w1, w2, w3) ≤ lookupD bi (w1, w2) →
        interpolated_probability w1 w2 w3 uni bi tri defaultLambdas ≤ 1) := by
  have e := interp_eq_spec_default w1 w2 w3 uni bi tri
  refine ⟨?_, ?_, ?_⟩
  · rw [e]
    have := (P_unigram_bounds uni w3).1
    have := P_bigram_nonneg uni bi w2 w3
    have := P_trigram_nonneg bi tri w1 w2 w3
    linarith
  · rintro ⟨z1, z2, z3⟩
    rw [e, z1, z2, z3]
    ring
  · intro hbi htri
    have h1 := P_unigram_bounds uni w3
    have h2 := P_bigram_bounds uni bi w2 w3 hbi
    have h3 := P_trigram_bounds bi tri w1 w2 w3 htri
    rw [e]
    linarith [h1.1, h1.2, h2.1, h2.2, h3.1, h3.2]

/-- Witness for C5: at the consistent scenario tables, the unconditional
conjuncts apply directly and the conditional upper bound's hypotheses are
discharged by evaluation. -/
theorem C5_probability_bounds_witness :
    0 ≤ interpolated_probability ['a'] ['b'] ['c'] scenarioUni scenarioBi
        scenarioTri defaultLambdas ∧
      interpolated_probability ['a'] ['b'] ['c'] scenarioUni scenarioBi
        scenarioTri defaultLambdas ≤ 1 :=
  ⟨(C5_probability_bounds ['a'] ['b'] ['c'] scenarioUni scenarioBi scenarioTri).1,
   (C5_probability_bounds ['a'] ['b'] ['c'] scenarioUni scenarioBi
      scenarioTri).2.2 (by decide) (by decide)⟩

/-- **C6**: for every token sequence of length `n`, `count_ngrams` returns
tables whose total counts are exactly `n` unigrams, `max(n-1, 0)` bigrams
and `max(n-2, 0)` trigrams (`ℕ` subtraction is truncated, so `n - k` is
`max(n-k, 0)`). -/
theorem C6_count_conservation (tokens : List Sym) :
    totalCount (count_ngrams tokens).1 = tokens.length ∧
      totalCount (count_ngrams tokens).2.1 = tokens.length - 1 ∧
      totalCount (count_ngrams tokens).2.2 = tokens.length - 2 := by
  have h := countLoop_totals tokens [] [] []
  simpa [count_ngrams, totalCount] using h

/-- **C8**: on an empty vocabulary (empty corpus), `train_bpe` returns the
empty vocabulary and an empty merge list for every positive target size:
the loop finds no pair to merge and takes its second `break`. -/
theorem C8_train_bpe_empty_corpus (target : ℕ) (h : 0 < target) :
    train_bpe [] target = ([], []) := by
  have hc : count_unique_symbols ([] : Vocab) = 0 := by decide
  have hns : ¬ (target ≤ count_unique_symbols ([] : Vocab)) := by omega
  simp [train_bpe, vocabSize, trainLoop, hns, get_pair_frequencies, pickMax]

/-- Witness for C8 at the repository's actual target size 250. -/
theorem C8_train_bpe_empty_corpus_witness :
    0 < 250 ∧ train_bpe [] 250 = ([], []) :=
  ⟨by decide, C8_train_bpe_empty_corpus 250 (by decide)⟩

/-! ## Merging preserves the underlying characters (C9) -/

/-- The shared merge loop never changes the concatenated characters of a
word: the merged symbol is by construction the concatenation of the two
matched symbols. -/
theorem mergeWord_flatten (pair : Sym × Sym) :
    (w : List Sym) → (mergeWord pair w).flatten = w.flatten
  | [] => by simp [mergeWord]
  | [a] => by simp [mergeWord]
  | a :: b :: rest => by
    simp only [mergeWord]
    split
    · rename_i h
      simp only [List.flatten_cons, mergeWord_flatten pair rest, h.1, h.2,
        List.append_assoc]
    · simp only [List.flatten_cons, mergeWord_flatten pair (b :: rest)]

/-- A key of `insertOv tbl key v` is `key` or a key of `tbl`. -/
theorem insertOv_fst_mem {α : Type} [DecidableEq α] (tbl : List (α × ℕ))
    (key : α) (v : ℕ) :
    ∀ k, k ∈ (insertOv tbl key v).map Prod.fst → k = key ∨ k ∈ tbl.map Prod.fst := by
  induction tbl with
  | nil =>
    intro k hk
    simp only [insertOv, List.map_cons, List.map_nil, List.mem_singleton] at hk
    exact Or.inl hk
  | cons e rest ih =>
    obtain ⟨k0, w⟩ := e
    intro k hk
    by_cases h : k0 = key
    · simp only [insertOv, if_pos h, List.map_cons, List.mem_cons] at hk
      simp only [List.map_cons, List.mem_cons]
      tauto
    · simp only [insertOv, if_neg h, List.map_cons, List.mem_cons] at hk
      simp only [List.map_cons, List.mem_cons]
      rcases hk with hk | hk
      · tauto
      · rcases ih k hk with h1 | h1 <;> tauto

/-- Every key of the dictionary rebuilt by the `merge_pair` fold is the
merge of a key of the input vocabulary (or was already in the
accumulator). -/
theorem merge_pair_fold_keys (pair : Sym × Sym) (vocab : Vocab) :
    ∀ (acc : Vocab) (k : List Sym),
      k ∈ (vocab.foldl (fun acc e => insertOv acc (mergeWord pair e.1) e.2)
            acc).map Prod.fst →
      k ∈ acc.map Prod.fst ∨ ∃ w, w ∈ vocab.map Prod.fst ∧ k = mergeWord pair w := by
  induction vocab with
  | nil =>
    intro acc k hk
    exact Or.inl (by simpa using hk)
  | cons e rest ih =>
    intro acc k hk
    simp only [List.foldl_cons] at hk
    rcases ih _ k hk with h1 | h1
    · rcases insertOv_fst_mem acc (mergeWord pair e.1) e.2 k h1 with h2 | h2
      · exact Or.inr ⟨e.1, by simp, h2⟩
      · exact Or.inl h2
    · obtain ⟨w, hw, hkw⟩ := h1
      exact Or.inr ⟨w, by simp [hw], hkw⟩

/-- **C9**: applying a merge preserves the underlying character sequence —
the tokens returned by `_apply_merge_to_tokens` concatenate to the same
characters as the input tokens, and every word-form key produced by
`merge_pair` is the merge image of an input key with the same concatenated
characters; merging never adds, drops or reorders characters. -/
theorem C9_merge_preserves_characters (pair : Sym × Sym) (tokens : List Sym)
    (vocab : Vocab) :
    (applyMergeToTokens tokens pair).flatten = tokens.flatten ∧
      ∀ k, k ∈ (merge_pair pair vocab).map Prod.fst →
        ∃ w, w ∈ vocab.map Prod.fst ∧ k = mergeWord pair w ∧
          k.flatten = w.flatten := by
  constructor
  · exact mergeWord_flatten pair tokens
  · intro k hk
    rcases merge_pair_fold_keys pair vocab [] k (by simpa [merge_pair] using hk)
      with h | h
    · simp at h
    · obtain ⟨w, hw, rfl⟩ := h
      exact ⟨w, hw, rfl, mergeWord_flatten pair w⟩

/-- Witness for C9 at the spec §8 scenario: merging `('ب','ہ')` on the
word-form `('ب','ہ','ت','</w>')`. -/
theorem C9_merge_preserves_characters_witness :
    (applyMergeToTokens [['ب'], ['ہ'], ['ت'], EOW] (['ب'], ['ہ'])).flatten =
        ([['ب'], ['ہ'], ['ت'], EOW] : List Sym).flatten ∧
      ∃ w, w ∈ ([([['ب'], ['ہ'], ['ت'], EOW], 4)] : Vocab).map Prod.fst ∧
        [['ب', 'ہ'], ['ت'], EOW] = mergeWord (['ب'], ['ہ']) w ∧
        ([['ب', 'ہ'], ['ت'], EOW] : List Sym).flatten = w.flatten :=
  ⟨(C9_merge_preserves_characters (['ب'], ['ہ']) [['ب'], ['ہ'], ['ت'], EOW]
      [([['ب'], ['ہ'], ['ت'], EOW], 4)]).1,
   (C9_merge_preserves_characters (['ب'], ['ہ']) [['ب'], ['ہ'], ['ت'], EOW]
      [([['ب'], ['ہ'], ['ت'], EOW], 4)]).2
     [['ب', 'ہ'], ['ت'], EOW] (by decide)⟩

/-! ## Generation lemmas (C3, C10) -/

/-- Bounds on the sampling loop: it only ever appends, and it stops by the
time the sequence reaches `maxLen` tokens (one appended token may land
exactly on `maxLen`). -/
theorem genLoop_length (uni : UniTable) (bi : BiTable) (tri : TriTable)
    (lambdas : ℚ × ℚ × ℚ) (maxLen : ℕ) (choose : ℕ → ℕ) (step : ℕ)
    (tokens : List Sym) :
    tokens.length ≤ (genLoop uni bi tri lambdas maxLen choose step tokens).length ∧
      ((genLoop uni bi tri lambdas maxLen choose step tokens).length ≤ tokens.length ∨
        (genLoop uni bi tri lambdas maxLen choose step tokens).length ≤ maxLen) := by
  induction step, tokens using genLoop.induct uni bi tri lambdas maxLen choose with
  | case1 step tokens hlt hl =>
    rw [genLoop.eq_def]
    simp [hlt, hl]
  | case2 step tokens hlt w1 w2 hl hc =>
    rw [genLoop.eq_def]
    simp [hlt, hl, hc]
  | case3 step tokens hlt w1 w2 hl hc hEOT =>
    rw [genLoop.eq_def]
    simp only [dif_pos hlt, hl, if_neg hc, if_pos hEOT, List.length_append,
      List.length_cons, List.length_nil]
    omega
  | case4 step tokens hlt w1 w2 hl hc hEOT ih =>
    rw [genLoop.eq_def]
    simp only [dif_pos hlt, hl, if_neg hc, if_neg hEOT]
    simp only [List.length_append, List.length_cons, List.length_nil] at ih
    omega
  | case5 step tokens hlt =>
    rw [genLoop.eq_def]
    simp [hlt]

/-- The loop never returns an empty sequence from a non-empty one. -/
theorem genLoop_ne_nil (uni : UniTable) (bi : BiTable) (tri : TriTable)
    (lambdas : ℚ × ℚ × ℚ) (maxLen : ℕ) (choose : ℕ → ℕ) (step : ℕ)
    (tokens : List Sym) (h : tokens ≠ []) :
    genLoop uni bi tri lambdas maxLen choose step tokens ≠ [] := by
  have hlen := (genLoop_length uni bi tri lambdas maxLen choose step tokens).1
  intro h0
  rw [h0] at hlen
  simp only [List.length_nil, Nat.le_zero, List.length_eq_zero] at hlen
  exact h hlen

/-- The head of `dropWhile p` does not satisfy `p`. -/
theorem head?_dropWhile_false {p : Char → Bool} :
    ∀ (l : List Char) (c : Char), (l.dropWhile p).head? = some c → p c = false := by
  intro l
  induction l with
  | nil => intro c h; simp [List.dropWhile] at h
  | cons a rest ih =>
    intro c h
    rw [List.dropWhile_cons] at h
    split at h
    · exact ih c h
    · rename_i hpa
      simp only [List.head?_cons, Option.some.injEq] at h
      subst h
      simpa using hpa

/-- List `dropWhile` keeps the final element when it does not satisfy the
predicate. -/
theorem getLast?_dropWhile {p : Char → Bool} :
    ∀ (l : List Char) (c : Char), l.getLast? = some c → p c = false →
      (l.dropWhile p).getLast? = some c := by
  intro l
  induction l with
  | nil => intro c h _; simp at h
  | cons a rest ih =>
    intro c h hpc
    rw [List.dropWhile_cons]
    cases rest with
    | nil =>
      simp only [List.getLast?_singleton, Option.some.injEq] at h
      subst h
      simp [hpc]
    | cons b rs =>
      rw [List.getLast?_cons_cons] at h
      split
      · exact ih c h hpc
      · rw [List.getLast?_cons_cons]
        exact h

/-- Python `rstrip` output never ends in whitespace. -/
theorem rstripL_getLast? (cs : List Char) (c : Char)
    (h : (rstripL cs).getLast? = some c) : isWS c = false := by
  unfold rstripL at h
  rw [List.getLast?_reverse] at h
  exact head?_dropWhile_false _ c h

/-- Python `rstrip` keeps a list ending in non-whitespace unchanged. -/
theorem rstripL_eq_self (cs : List Char) (c : Char) (h : cs.getLast? = some c)
    (hws : isWS c = false) : rstripL cs = cs := by
  unfold rstripL
  have h1 : cs.reverse.head? = some c := by rw [List.head?_reverse]; exact h
  cases hrev : cs.reverse with
  | nil => rw [hrev] at h1; simp at h1
  | cons a rs =>
    rw [hrev] at h1
    simp only [List.head?_cons, Option.some.injEq] at h1
    subst h1
    rw [List.dropWhile_cons, if_neg (by simp [hws])]
    rw [← hrev, List.reverse_reverse]

/-- Python `strip` keeps a non-whitespace final element. -/
theorem stripL_getLast? (cs : List Char) (c : Char) (h : cs.getLast? = some c)
    (hws : isWS c = false) : (stripL cs).getLast? = some c := by
  unfold stripL lstripL
  rw [rstripL_eq_self cs c h hws]
  exact getLast?_dropWhile cs c h hws

/-- After the punctuation fix and the final strip, a non-empty character
list ends in a sentence-ending punctuation mark: either the stripped text
already did, or `'۔'` was appended and survives stripping. -/
theorem punctFix_strip_endsPunct (d : List Char)
    (hne : stripL (punctFix d) ≠ []) :
    endsPunct (stripL (punctFix d)) = true := by
  unfold punctFix at hne ⊢
  by_cases hd : d = []
  · exfalso
    apply hne
    simp [hd, stripL, lstripL, rstripL]
  · rw [if_pos hd] at hne ⊢
    by_cases hp : endsPunct (rstripL d) = true
    · rw [if_neg (by simp [hp])] at hne ⊢
      cases hr : (rstripL d).getLast? with
      | none =>
        unfold endsPunct at hp
        rw [hr] at hp
        simp at hp
      | some c =>
        have hcs : (c = '۔' || c = '؟' || c = '!') = true := by
          unfold endsPunct at hp
          rw [hr] at hp
          exact hp
        have hws : isWS c = false := by
          have := hcs
          simp only [Bool.or_eq_true, decide_eq_true_eq] at this
          rcases this with (h1 | h1) | h1 <;> subst h1 <;> decide
        unfold endsPunct
        rw [stripL_getLast? (rstripL d) c hr hws]
        exact hcs
    · rw [if_pos (by simp [hp])] at hne ⊢
      have hlast : (rstripL d ++ ['۔']).getLast? = some '۔' := by
        simp [List.getLast?_concat]
      unfold endsPunct
      rw [stripL_getLast? (rstripL d ++ ['۔']) '۔' hlast (by decide)]
      decide

/-- Non-empty generator output always ends in sentence punctuation. -/
theorem finalText_endsPunct (tokens : List Sym) (hne : finalText tokens ≠ "") :
    endsPunct (finalText tokens).data = true := by
  unfold finalText at hne ⊢
  have hne' : stripL (punctFix (decodeS tokens).data) ≠ [] := by
    intro h0
    exact hne (by rw [h0])
  exact punctFix_strip_endsPunct _ hne'

/-! ## Claim theorems C3 and C10 -/

/-- **C3**: for every prefix of at least one token, every `max_len`, all
three frequency tables, all weights and every sampling outcome,
`generate_story` terminates normally (no exception), its final token
sequence carries at most `max_len + 1` tokens beyond the prefix, and the
returned text, when non-empty, ends in one of the sentence-ending marks
`'۔'`, `'؟'`, `'!'`. -/
theorem C3_generation_bounded_and_punctuated (prefixTokens : List Sym)
    (maxLen : ℕ) (uni : UniTable) (bi : BiTable) (tri : TriTable)
    (lambdas : ℚ × ℚ × ℚ) (choose : ℕ → ℕ) (h : prefixTokens ≠ []) :
    ∃ ts, genStoryTokens prefixTokens maxLen uni bi tri lambdas choose = some ts ∧
      generate_story prefixTokens maxLen uni bi tri lambdas choose =
        Except.ok (finalText ts) ∧
      ts.length ≤ prefixTokens.length + (maxLen + 1) ∧
      (finalText ts ≠ "" → endsPunct (finalText ts).data = true) := by
  obtain ⟨hmono, hub⟩ := genLoop_length uni bi tri lambdas maxLen choose 0 prefixTokens
  have htne : genLoop uni bi tri lambdas maxLen choose 0 prefixTokens ≠ [] :=
    genLoop_ne_nil uni bi tri lambdas maxLen choose 0 prefixTokens h
  set t := genLoop uni bi tri lambdas maxLen choose 0 prefixTokens with ht
  have hfe : ∃ ts, forceEOT maxLen t = some ts ∧ ts.length ≤ t.length + 1 := by
    unfold forceEOT
    by_cases hml : maxLen ≤ t.length
    · rw [if_pos hml]
      cases hg : t.getLast? with
      | none => exact absurd (List.getLast?_eq_none_iff.mp hg) htne
      | some x =>
        refine ⟨_, rfl, ?_⟩
        split <;> simp
    · rw [if_neg hml]
      exact ⟨t, rfl, by omega⟩
  obtain ⟨ts, hts, hlen⟩ := hfe
  have hg : genStoryTokens prefixTokens maxLen uni bi tri lambdas choose = some ts := by
    unfold genStoryTokens
    rw [← ht]
    exact hts
  refine ⟨ts, hg, ?_, ?_, fun hne => finalText_endsPunct ts hne⟩
  · unfold generate_story
    rw [hg]
  · omega

/-- Witness for C3 at a concrete one-token prefix, `max_len = 3`, empty
tables and the constant-zero oracle. -/
theorem C3_generation_witness :
    ([['ا']] : List Sym) ≠ [] ∧
      ∃ ts, genStoryTokens [['ا']] 3 [] [] [] defaultLambdas (fun _ => 0) = some ts ∧
        generate_story [['ا']] 3 [] [] [] defaultLambdas (fun _ => 0) =
          Except.ok (finalText ts) ∧
        ts.length ≤ ([['ا']] : List Sym).length + (3 + 1) ∧
        (finalText ts ≠ "" → endsPunct (finalText ts).data = true) :=
  ⟨by decide,
   C3_generation_bounded_and_punctuated [['ا']] 3 [] [] [] defaultLambdas
     (fun _ => 0) (by decide)⟩

/-- **C10**: with an empty prefix token list and any `max_len ≥ 1`,
`generate_story` does not raise: the sampling loop exits on its first
iteration (no context available) and the function returns the empty
string. -/
theorem C10_empty_prefix_empty_string (maxLen : ℕ) (uni : UniTable)
    (bi : BiTable) (tri : TriTable) (lambdas : ℚ × ℚ × ℚ) (choose : ℕ → ℕ)
    (h : 1 ≤ maxLen) :
    generate_story [] maxLen uni bi tri lambdas choose = Except.ok "" := by
  have hloop : genLoop uni bi tri lambdas maxLen choose 0 [] = [] := by
    rw [genLoop.eq_def]
    have h0 : ([] : List Sym).length < maxLen := by simp; omega
    simp [h0, lastTwo]
  have hst : genStoryTokens [] maxLen uni bi tri lambdas choose = some [] := by
    unfold genStoryTokens
    rw [hloop]
    unfold forceEOT
    rw [if_neg (by simp; omega)]
  unfold generate_story
  rw [hst]
  rfl

/-- Witness for C10 at `max_len = 5`, empty tables and the constant-zero
oracle. -/
theorem C10_empty_prefix_witness :
    1 ≤ 5 ∧
      generate_story [] 5 [] [] [] defaultLambdas (fun _ => 0) = Except.ok "" :=
  ⟨by decide,
   C10_empty_prefix_empty_string 5 [] [] [] defaultLambdas (fun _ => 0) (by decide)⟩

/-! ## Tokenizer round-trip and special-token handling (C1, C2, C7) -/

/-- **C1 (code bug)**: the round-trip fails already for the two-word text
`"ا ب"` with an empty merge list: `decode(encode("ا ب"))` is `"اب"`, the
word boundary is lost, because each bare end-of-word marker token `"</w>"`
starts with `'<'` and is discarded by the decode filter before the
marker-to-space replacement runs.  The whitespace-normalised input is
`"ا ب"` itself, so the claim's equation fails at this input. -/
theorem C1_roundtrip_fails :
    decodeS (encode "ا ب" []) = "اب" ∧ ("اب" : String) ≠ "ا ب" :=
  ⟨by decide, by decide⟩

/-- **C2 (code bug)**: `decode` does not discard the system's actual
end-of-text sentinel `EOT = U+E002` defined in `constants.py` — the
sentinel is a recognised special token, yet it survives decoding and
contributes its character to the returned text. -/
theorem C2_decode_keeps_pua_sentinel :
    EOT ∈ SPECIAL_TOKENS ∧ decodeS [EOT] = "" ∧ ("" : String) ≠ "" :=
  ⟨by decide, by decide, by decide⟩

/-- **C7 (code bug)**: `encode` does not emit the system's actual
end-of-text sentinel `EOT = U+E002` (a whitespace-delimited word exactly
matching a known special token of `constants.py`) as an atomic token: it
decomposes it into its character and appends the end-of-word marker,
because the encoder only recognises the ASCII strings
`'<EOS>'/'<EOP>'/'<EOT>'`. -/
theorem C7_encode_decomposes_sentinel :
    EOT ∈ SPECIAL_TOKENS ∧ encode "" [] = [EOT, EOW] ∧
      ([EOT, EOW] : List Sym) ≠ [EOT] :=
  ⟨by decide, by decide, by decide⟩

end UrduStory
